import Mathlib

set_option linter.unusedVariables false

/-
  Verification development for the reviews parser of parser-2gis
  (src/parser_2gis/parser/parsers/reviews.py, class ReviewsParser).

  The Python code is shallowly embedded as pure Lean functions.  Browser
  collaborators (ChromeRemote) are modelled as an environment oracle
  ChromeEnv that supplies, per pagination cycle, the DOM snapshot nodes,
  the captured pagination response and its body; the document responses of
  the navigation; and the page markup.  Python exceptions are modelled with
  Except PyError, Python None with Option, and the observable side effects
  of one parse invocation (scroll gestures, body fetches, extraction calls,
  stopping the session) with an explicit trace.  The pagination loop is
  given a fuel parameter; running out of fuel is a distinct outcome, so
  termination statements say that enough fuel is never exhausted.
-/

/-- Python exception classes that the embedded code can raise. -/
inductive PyError where
  | typeError
  | keyError
  | indexError
  | valueError
  | assertionError
deriving DecidableEq

/-- Values produced by json.loads.  Numeric literals keep their lexeme,
which preserves exactly which texts are valid JSON without committing to a
numeric representation (no claim depends on numeric arithmetic). -/
inductive JsonValue where
  | null
  | bool (b : Bool)
  | num (lexeme : String)
  | str (s : String)
  | arr (elems : List JsonValue)
  | obj (members : List (String × JsonValue))

/-- Python truthiness of a json.loads value: None, False, 0, empty string,
empty list and empty dict are falsy.  A numeric lexeme denotes zero exactly
when all of its digits are 0 (sign, dot and exponent do not matter); the
named constants NaN and Infinity are truthy. -/
def JsonValue.truthy : JsonValue → Bool
  | .null => false
  | .bool b => b
  | .num s =>
      s == "NaN" || s == "Infinity" || s == "-Infinity" ||
        (s.data.filter Char.isDigit).any (fun c => c != '0')
  | .str s => s != ""
  | .arr xs => !xs.isEmpty
  | .obj kvs => !kvs.isEmpty

/-- Python dict insertion: an existing key keeps its position and gets the
new value, a new key is appended.  json.loads builds its dicts this way, so
duplicate keys in a JSON text collapse to one entry. -/
def objInsert : List (String × JsonValue) → String → JsonValue → List (String × JsonValue)
  | [], k, v => [(k, v)]
  | (k1, v1) :: rest, k, v =>
      if k1 = k then (k1, v) :: rest else (k1, v1) :: objInsert rest k v

/-- JSON whitespace accepted between tokens by json.loads. -/
def isJsonWs (c : Char) : Bool :=
  c == ' ' || c == '\t' || c == '\n' || c == '\r'

def skipWs : List Char → List Char
  | [] => []
  | c :: rest => if isJsonWs c then skipWs rest else c :: rest

/-- Single-character JSON string escapes.  Note that a single-quote escape
is not valid JSON; json.loads rejects it, which matters for the extracted
bootstrap blob. -/
def escChar (e : Char) : Option Char :=
  if e == '"' then some '"'
  else if e == '\\' then some '\\'
  else if e == '/' then some '/'
  else if e == 'b' then some (Char.ofNat 8)
  else if e == 'f' then some (Char.ofNat 12)
  else if e == 'n' then some '\n'
  else if e == 'r' then some '\r'
  else if e == 't' then some '\t'
  else none

def hexDigitVal (c : Char) : Option Nat :=
  if c.isDigit then some (c.toNat - 48)
  else if 97 ≤ c.toNat ∧ c.toNat ≤ 102 then some (c.toNat - 87)
  else if 65 ≤ c.toNat ∧ c.toNat ≤ 70 then some (c.toNat - 55)
  else none

/-- Body of a JSON string after the opening double quote, strict mode:
raw control characters are rejected, unknown escapes are rejected.
Surrogate pairs from two u-escapes are approximated by the replacement of
each escape with its own scalar (no claim exercises them). -/
def parseStrChars : List Char → List Char → Option (String × List Char)
  | acc, [] => none
  | acc, c :: rest =>
    if c == '"' then some (String.mk acc.reverse, rest)
    else if c == '\\' then
      match rest with
      | 'u' :: h1 :: h2 :: h3 :: h4 :: rest4 =>
        match hexDigitVal h1, hexDigitVal h2, hexDigitVal h3, hexDigitVal h4 with
        | some a, some b, some c2, some d =>
            parseStrChars (Char.ofNat (((a * 16 + b) * 16 + c2) * 16 + d) :: acc) rest4
        | _, _, _, _ => none
      | e :: rest2 =>
        match escChar e with
        | some ch => parseStrChars (ch :: acc) rest2
        | none => none
      | [] => none
    else if c.toNat < 32 then none
    else parseStrChars (c :: acc) rest

def takeDigits : List Char → List Char × List Char
  | [] => ([], [])
  | c :: rest =>
    if c.isDigit then
      let p := takeDigits rest
      (c :: p.1, p.2)
    else ([], c :: rest)

/-- Integer part of a JSON number: 0, or a nonzero digit followed by digits. -/
def parseIntPart : List Char → Option (List Char × List Char)
  | [] => none
  | c :: rest =>
    if c == '0' then some ([c], rest)
    else if c.isDigit then
      let p := takeDigits rest
      some (c :: p.1, p.2)
    else none

/-- Optional fraction part: a dot followed by at least one digit, else
nothing is consumed. -/
def parseFracPart (l : List Char) : List Char × List Char :=
  match l with
  | '.' :: (d :: _) =>
    if d.isDigit then
      let p := takeDigits (l.drop 1)
      ('.' :: p.1, p.2)
    else ([], l)
  | _ => ([], l)

/-- Optional exponent part: e or E, an optional sign, at least one digit. -/
def parseExpPart (l : List Char) : List Char × List Char :=
  match l with
  | c :: s :: (d :: _) =>
    if (c == 'e' || c == 'E') && (s == '+' || s == '-') && d.isDigit then
      let p := takeDigits (l.drop 2)
      (c :: s :: p.1, p.2)
    else if (c == 'e' || c == 'E') && s.isDigit then
      let p := takeDigits (l.drop 1)
      (c :: p.1, p.2)
    else ([], l)
  | c :: s :: [] =>
    if (c == 'e' || c == 'E') && s.isDigit then
      let p := takeDigits (l.drop 1)
      (c :: p.1, p.2)
    else ([], l)
  | _ => ([], l)

/-- JSON number lexeme, as matched by the strict decoder of json.loads. -/
def parseNum (l : List Char) : Option (String × List Char) :=
  match l with
  | '-' :: rest =>
    match parseIntPart rest with
    | none => none
    | some (ip, r1) =>
      let f := parseFracPart r1
      let e := parseExpPart f.2
      some (String.mk ('-' :: (ip ++ f.1 ++ e.1)), e.2)
  | _ =>
    match parseIntPart l with
    | none => none
    | some (ip, r1) =>
      let f := parseFracPart r1
      let e := parseExpPart f.2
      some (String.mk (ip ++ f.1 ++ e.1), e.2)

def pfx (p : String) (l : List Char) : Bool := p.data.isPrefixOf l

/-- Parsing mode of the single JSON grammar driver: a value, the element
list of an array after its opening bracket, or the member list of an
object after its opening brace. -/
inductive PMode where
  | value
  | elems (acc : List JsonValue) (first : Bool)
  | members (acc : List (String × JsonValue)) (first : Bool)

/-- The JSON grammar of json.loads, fuel-indexed and structurally
recursive on the fuel so that it evaluates by kernel reduction.  json.loads
also accepts the constants NaN, Infinity and -Infinity. -/
def parseJ : Nat → PMode → List Char → Option (JsonValue × List Char)
  | 0, _, _ => none
  | fuel + 1, .value, l0 =>
    let l := skipWs l0
    if pfx "null" l then some (.null, l.drop 4)
    else if pfx "true" l then some (.bool true, l.drop 4)
    else if pfx "false" l then some (.bool false, l.drop 5)
    else if pfx "NaN" l then some (.num "NaN", l.drop 3)
    else if pfx "Infinity" l then some (.num "Infinity", l.drop 8)
    else if pfx "-Infinity" l then some (.num "-Infinity", l.drop 9)
    else
      match l with
      | '"' :: rest =>
        match parseStrChars [] rest with
        | some (s, r) => some (.str s, r)
        | none => none
      | '\x7b' :: rest => parseJ fuel (.members [] true) rest
      | '[' :: rest => parseJ fuel (.elems [] true) rest
      | _ =>
        match parseNum l with
        | some (s, r) => some (.num s, r)
        | none => none
  | fuel + 1, .elems acc first, l =>
    match skipWs l with
    | ']' :: rest => if first then some (.arr acc.reverse, rest) else none
    | l1 =>
      match parseJ fuel .value l1 with
      | none => none
      | some (v, r) =>
        match skipWs r with
        | ',' :: r2 => parseJ fuel (.elems (v :: acc) false) r2
        | ']' :: r2 => some (.arr (v :: acc).reverse, r2)
        | _ => none
  | fuel + 1, .members acc first, l =>
    match skipWs l with
    | '\x7d' :: rest => if first then some (.obj acc, rest) else none
    | '"' :: rest =>
      match parseStrChars [] rest with
      | none => none
      | some (k, r1) =>
        match skipWs r1 with
        | ':' :: r2 =>
          match parseJ fuel .value r2 with
          | none => none
          | some (v, r3) =>
            match skipWs r3 with
            | ',' :: r4 => parseJ fuel (.members (objInsert acc k v) false) r4
            | '\x7d' :: r4 => some (.obj (objInsert acc k v), r4)
            | _ => none
        | _ => none
    | _ => none

/-- One JSON value with leading whitespace. -/
def parseValue (fuel : Nat) (l : List Char) : Option (JsonValue × List Char) :=
  parseJ fuel .value l

/-- json.loads: a single JSON document with nothing but whitespace after
it.  Along every chain of recursive calls of the grammar at least one
character is consumed per two calls, so this fuel can never run out. -/
def jsonLoads (s : String) : Option JsonValue :=
  match parseValue (2 * s.length + 2) s.data with
  | none => none
  | some (v, rest) => if (skipWs rest).isEmpty then some v else none

/-- Python str.replace: leftmost, non-overlapping, the replacement text is
not rescanned.  The fuel is the length of the scanned text, which is always
enough (the embedded code never calls this with an empty pattern). -/
def replaceAux (pat rep : List Char) : Nat → List Char → List Char
  | _, [] => []
  | 0, l => l
  | fuel + 1, c :: rest =>
    if pat.isPrefixOf (c :: rest) then
      rep ++ replaceAux pat rep fuel ((c :: rest).drop pat.length)
    else c :: replaceAux pat rep fuel rest

def pyReplace (s pat rep : String) : String :=
  String.mk (replaceAux pat.data rep.data s.data.length s.data)

/-- The single-quote character, kept out of string literals. -/
def squote : Char := Char.ofNat 39

def squoteStr : String := String.singleton squote

/-- Literal prefix matched by the first regular expression of
get_internal_reviews: the text before its lazy capture group. -/
def initialStateOpen : List Char :=
  ("var initialState = JSON.parse(\\" ++ squoteStr).data

/-- Literal text that must follow the lazy capture group of the first
regular expression, before the whitespace run and the word window. -/
def initialStateClose : List Char :=
  ("\\" ++ squoteStr ++ ");").data

/-- Lookbehind text of the second regular expression. -/
def suggestionsMarker : List Char := "\"objectSuggestions\":\x7b\x7d,".data

/-- Literal text that must follow the lazy capture group of the second
regular expression. -/
def photoMarker : List Char := ",\"photo\":\x7b\x7d,".data

/-- ASCII whitespace matched by a regex whitespace class (the Unicode
additions are irrelevant to the page markup handled here). -/
def isPySpace (c : Char) : Bool :=
  c == ' ' || c == '\t' || c == '\n' || c == '\r' ||
    c == Char.ofNat 11 || c == Char.ofNat 12

/-- Match of one-or-more whitespace followed by the word window.  The word
starts with a non-space character, so greedy matching with backtracking
reduces to skipping the maximal whitespace run. -/
def spacesThenWindow (l : List Char) : Bool :=
  match l with
  | [] => false
  | c :: rest => isPySpace c && "window".data.isPrefixOf (rest.dropWhile isPySpace)

/-- Lazy capture group of the first regular expression: the shortest text
after which the closing marker, whitespace and the word window follow. -/
def findClose1 : List Char → List Char → Option (List Char)
  | acc, [] => none
  | acc, c :: rest =>
    if initialStateClose.isPrefixOf (c :: rest) &&
        spacesThenWindow ((c :: rest).drop initialStateClose.length) then
      some acc.reverse
    else findClose1 (c :: acc) rest

/-- re.search with the first pattern of get_internal_reviews: the match
starts at the leftmost occurrence of the opening literal after which the
close, whitespace and the word window can be found; returns group 1. -/
def scan1 : List Char → Option (List Char)
  | [] => none
  | c :: rest =>
    if initialStateOpen.isPrefixOf (c :: rest) then
      match findClose1 [] ((c :: rest).drop initialStateOpen.length) with
      | some g => some g
      | none => scan1 rest
    else scan1 rest

/-- Lazy capture group of the second regular expression: the shortest text
up to the photo marker. -/
def findClose2 : List Char → List Char → Option (List Char)
  | acc, [] => none
  | acc, c :: rest =>
    if photoMarker.isPrefixOf (c :: rest) then some acc.reverse
    else findClose2 (c :: acc) rest

/-- re.search with the second pattern: the match position is just after the
leftmost occurrence of the lookbehind marker from which the photo marker
can still be reached; returns group 1. -/
def scan2 : List Char → Option (List Char)
  | [] => none
  | c :: rest =>
    if suggestionsMarker.isPrefixOf (c :: rest) then
      match findClose2 [] ((c :: rest).drop suggestionsMarker.length) with
      | some g => some g
      | none => scan2 rest
    else scan2 rest

/-- The normalization performed on the extracted window before json.loads:
wrap in braces, strip line breaks, collapse doubled backslashes, turn
single into double quotes — in exactly the order of the source. -/
def normalizeReviewsJson (g2 : String) : String :=
  let s0 := "\x7b" ++ g2 ++ "\x7d"
  let s1 := pyReplace s0 "\r\n" ""
  let s2 := pyReplace s1 "\n" ""
  let s3 := pyReplace s2 "\\\\" "\\"
  pyReplace s3 squoteStr "\""

/-- Integer value of a JSON number lexeme, when it has no fraction and no
exponent part; floats give none (and a float used as a sequence index is a
TypeError in Python). -/
def lexToInt (s : String) : Option Int :=
  match s.data with
  | '-' :: ds =>
    if ds ≠ [] ∧ ds.all Char.isDigit then
      some (-(ds.foldl (fun a c => a * 10 + (c.toNat - 48)) 0 : Nat))
    else none
  | ds =>
    if ds ≠ [] ∧ ds.all Char.isDigit then
      some ((ds.foldl (fun a c => a * 10 + (c.toNat - 48)) 0 : Nat))
    else none

/-- A subscript key usable as a Python sequence index: ints, and bools
(False is 0, True is 1). -/
def keyInt : JsonValue → Option Int
  | .num s => lexToInt s
  | .bool b => some (if b then 1 else 0)
  | _ => none

/-- Python subscript v[key] on json.loads values.  Dict lookup by string
key, KeyError when absent and for other hashable keys, TypeError for
unhashable keys; sequence indexing with negative wraparound, IndexError out
of range, TypeError for non-integer indices; everything else TypeError. -/
def pySubscript (v : JsonValue) (key : JsonValue) : Except PyError JsonValue :=
  match v with
  | .obj kvs =>
    match key with
    | .str k =>
      match kvs.lookup k with
      | some x => .ok x
      | none => .error .keyError
    | .arr _ => .error .typeError
    | .obj _ => .error .typeError
    | _ => .error .keyError
  | .arr xs =>
    match keyInt key with
    | none => .error .typeError
    | some i =>
      let j := if i < 0 then i + xs.length else i
      if h : 0 ≤ j ∧ j.toNat < xs.length then .ok (xs.get ⟨j.toNat, h.2⟩)
      else .error .indexError
  | .str s =>
    match keyInt key with
    | none => .error .typeError
    | some i =>
      let j := if i < 0 then i + s.length else i
      if h : 0 ≤ j ∧ j.toNat < s.data.length then
        .ok (.str (String.singleton (s.data.get ⟨j.toNat, h.2⟩)))
      else .error .indexError
  | _ => .error .typeError

/-- Python iteration over a json.loads value: a list yields its elements, a
dict its keys, a string its characters; anything else is not iterable. -/
def pyIterate : JsonValue → Except PyError (List JsonValue)
  | .arr xs => .ok xs
  | .obj kvs => .ok (kvs.map (fun kv => .str kv.1))
  | .str s => .ok (s.data.map (fun c => .str (String.singleton c)))
  | _ => .error .typeError

def exceptMap (f : JsonValue → Except PyError JsonValue) :
    List JsonValue → Except PyError (List JsonValue)
  | [] => .ok []
  | a :: as =>
    match f a with
    | .error e => .error e
    | .ok b =>
      match exceptMap f as with
      | .error e => .error e
      | .ok bs => .ok (b :: bs)

/-- The body of get_internal_reviews.  The two re.search calls are outside
the try block of the source: a failed search gives None, and subscripting
None raises an uncaught TypeError.  Only json.loads and the review lookup
are inside the try, whose bare except returns None. -/
def get_internal_reviews (html : String) : Except PyError (Option JsonValue) :=
  match scan1 html.data with
  | none => .error .typeError
  | some g1 =>
    match scan2 g1 with
    | none => .error .typeError
    | some g2 =>
      match jsonLoads (normalizeReviewsJson (String.mk g2)) with
      | none => .ok none
      | some v =>
        match pySubscript v (.str "review") with
        | .ok rv => .ok (some rv)
        | .error _ => .ok none

/-- The merge of a truthy internal_reviews value into the result list:
for user_id in internal_reviews, append internal_reviews[user_id]. -/
def mergeInternalVals (v : JsonValue) : Except PyError (List JsonValue) :=
  match pyIterate v with
  | .error e => .error e
  | .ok keys => exceptMap (pySubscript v) keys

/-- A network response as seen through the ChromeRemote collaborator: the
fields of the response dict that the parser reads. -/
structure Response where
  mimeType : String
  status : Int

/-- A DOM node as seen through the DOM-search collaborator: the fields the
sidebar predicate reads. -/
structure DOMNode where
  local_name : String
  attributes : List (String × String)

/-- The two ParserOptions fields the reviews parser consults. -/
structure ParserOptions where
  skip_404_response : Bool
  delay_between_clicks : Nat

/-- Oracle for the browser session during one parse invocation: the
document responses of the navigation, the rendered markup, and per
pagination cycle n the DOM snapshot nodes, the captured pagination
response (none when the bounded wait finds nothing) and the fetched
response body (none when the fetch yields nothing).  quiescent records
whether the page activity counter reached zero within the bounded wait. -/
structure ChromeEnv where
  navResponses : List Response
  html : String
  domNodes : Nat → List DOMNode
  waitResponse : Nat → Option Response
  responseBody : Nat → Option String
  quiescent : Bool

/-- The predicate of _get_sidebar, named valid_link in the source: a div
whose class attribute is present and empty. -/
def valid_link (node : DOMNode) : Bool :=
  node.attributes.lookup "class" == some "" && node.local_name == "div"

/-- _get_sidebar at cycle n: the DOM search filtered by valid_link.
Modelled from the spec: the wait_until_finished decorator (timeout 5,
throw_exception False, defined in common, outside src) polls the search
until truthy or timeout and then returns the last result without raising,
so an absent sidebar yields the empty list, never an exception. -/
def get_sidebar (env : ChromeEnv) (n : Nat) : List DOMNode :=
  (env.domNodes n).filter valid_link

/-- Modelled from the spec: _wait_requests_finished is wrapped by the
wait_until_finished decorator (timeout 120, defined in common, outside
src); per the spec it polls the activity counter until settled and on
timeout proceeds anyway, best-effort and not fatal, so it returns whether
quiescence was reached and never raises. -/
def wait_requests_finished (env : ChromeEnv) : Bool :=
  env.quiescent

/-- Observable effects of one pagination cycle. -/
structure CycleFx where
  scrolled : Bool
  bodyFetched : Bool

/-- load_reviews at cycle n.  The source indexes the sidebar search result
with [0], which raises IndexError on an empty list; after the scroll it
waits for a pagination response, and fetches the body only for a present
response with non-negative status.  The delay_between_clicks wait only
spends time and is not observable in the result. -/
def load_reviews (env : ChromeEnv) (opts : ParserOptions) (n : Nat) :
    Except PyError (Option String) × CycleFx :=
  match get_sidebar env n with
  | [] => (.error .indexError, ⟨false, false⟩)
  | _sidebar :: _ =>
    match env.waitResponse n with
    | some resp =>
      if 0 ≤ resp.status then (.ok (env.responseBody n), ⟨true, true⟩)
      else (.ok none, ⟨true, false⟩)
    | none => (.ok none, ⟨true, false⟩)

/-- Parsing of a truthy pagination body: json.loads(doc) with its uncaught
JSONDecodeError, the subscript by the reviews key, and the iteration of the
for loop, all outside any try block. -/
def docRecords (d : String) : Except PyError (List JsonValue) :=
  match jsonLoads d with
  | none => .error .valueError
  | some v =>
    match pySubscript v (.str "reviews") with
    | .error e => .error e
    | .ok rv => pyIterate rv

/-- Outcome of one iteration of the while loop. -/
inductive StepRes where
  | err (e : PyError)
  | stop (atObs returned : List JsonValue)
  | next (acc2 : List JsonValue)

/-- The initial-state extraction step of one loop iteration: run only when
get_init_html is still set. -/
def internalStepRes (env : ChromeEnv) (g : Bool) : Except PyError (Option JsonValue) :=
  if g then get_internal_reviews env.html else .ok none

/-- The if internal_reviews guard and its merge: a truthy value is iterated
and its entries appended, None and falsy values contribute nothing. -/
def mergeOpt : Option JsonValue → Except PyError (List JsonValue)
  | some v => if v.truthy then mergeInternalVals v else .ok []
  | none => .ok []

/-- The tail of one loop iteration after the merges: a truthy body is
parsed and its records appended before looping, a falsy body (None or the
empty string) stops the loop and returns the accumulated list. -/
def bodyStep (acc ir : List JsonValue) (doc : Option String) (fx : CycleFx) :
    StepRes × CycleFx :=
  match doc with
  | some d =>
    if d = "" then (.stop acc (acc ++ ir), fx)
    else
      match docRecords d with
      | .error e => (.err e, fx)
      | .ok dl => (.next (acc ++ ir ++ dl), fx)
  | none => (.stop acc (acc ++ ir), fx)

/-- One iteration of the while loop of parse, in source order: extract the
initial state when get_init_html is set, call load_reviews, merge the
truthy internal reviews, merge the truthy body, and decide whether to stop.
In a stop outcome, atObs is the accumulated list at the moment load_reviews
returned no data and returned is the list handed back by parse. -/
def loopStep (env : ChromeEnv) (opts : ParserOptions) (acc : List JsonValue)
    (g : Bool) (n : Nat) : StepRes × CycleFx :=
  match internalStepRes env g with
  | .error e => (.err e, ⟨false, false⟩)
  | .ok internal_reviews =>
    match load_reviews env opts n with
    | (.error e, fx) => (.err e, fx)
    | (.ok doc, fx) =>
      match mergeOpt internal_reviews with
      | .error e => (.err e, fx)
      | .ok ir => bodyStep acc ir doc fx

/-- Result of a parse invocation.  retNone is the bare return of the early
failure paths; retList carries the cycle index of the terminating
iteration, the accumulated list at the no-data observation, and the list
parse returns; fuelOut means the modelling fuel ran out with the loop still
running. -/
inductive PRes where
  | fuelOut
  | retNone
  | retList (cycle : Nat) (atObs returned : List JsonValue)
  | err (e : PyError)

/-- Trace of the observable session effects of one parse invocation. -/
structure ParseTrace where
  extractions : List Nat
  scrolls : List Nat
  bodyFetches : List Nat
  stopCalled : Bool

def ParseTrace.empty : ParseTrace := ⟨[], [], [], false⟩

/-- Prepend the effects of cycle n to the trace of the rest of the run. -/
def stepTrace (n : Nat) (extracted : Bool) (fx : CycleFx) (rest : ParseTrace) : ParseTrace :=
  { extractions := (if extracted then [n] else []) ++ rest.extractions
    scrolls := (if fx.scrolled then [n] else []) ++ rest.scrolls
    bodyFetches := (if fx.bodyFetched then [n] else []) ++ rest.bodyFetches
    stopCalled := rest.stopCalled }

/-- The while loop of parse: reviews accumulates, get_init_html is true in
the first iteration only, n counts the pagination cycles. -/
def parseLoop (env : ChromeEnv) (opts : ParserOptions) :
    List JsonValue → Bool → Nat → Nat → PRes × ParseTrace
  | _, _, _, 0 => (.fuelOut, .empty)
  | acc, g, n, fuel + 1 =>
    match loopStep env opts acc g n with
    | (.err e, fx) => (.err e, stepTrace n g fx .empty)
    | (.stop a r, fx) => (.retList n a r, stepTrace n g fx ⟨[], [], [], true⟩)
    | (.next acc2, fx) =>
      let rest := parseLoop env opts acc2 false (n + 1) fuel
      (rest.1, stepTrace n g fx rest.2)

/-- parse: navigate, read the first document response (return None when
there is none), assert the mime type, return None on a 404 document when
skip_404_response is set, wait for the page requests to settle (result
discarded), then run the pagination loop. -/
def parse (env : ChromeEnv) (opts : ParserOptions) (fuel : Nat) : PRes × ParseTrace :=
  match env.navResponses with
  | [] => (.retNone, .empty)
  | document_response :: _ =>
    if document_response.mimeType = "text/html" then
      if document_response.status = 404 ∧ opts.skip_404_response = true then
        (.retNone, .empty)
      else
        let _q := wait_requests_finished env
        parseLoop env opts [] true 0 fuel
    else (.err .assertionError, .empty)

/-- The data obtained by cycle n, disregarding effects. -/
def cycleData (env : ChromeEnv) (opts : ParserOptions) (n : Nat) :
    Except PyError (Option String) :=
  (load_reviews env opts n).1

/-- Records contributed to the result list by the body of cycle n: nothing
for a falsy body, the parsed reviews entries otherwise. -/
def docRecordsOf : Option String → Except PyError (List JsonValue)
  | none => .ok []
  | some d => if d = "" then .ok [] else docRecords d

def cycleRecords (env : ChromeEnv) (opts : ParserOptions) (n : Nat) :
    Except PyError (List JsonValue) :=
  match cycleData env opts n with
  | .error e => .error e
  | .ok d => docRecordsOf d

def cycleRecsD (env : ChromeEnv) (opts : ParserOptions) (n : Nat) : List JsonValue :=
  match cycleRecords env opts n with
  | .ok l => l
  | .error _ => []

/-- Concatenated pagination records of cycles lo, lo+1, ..., lo+len-1. -/
def pagBetween (env : ChromeEnv) (opts : ParserOptions) : Nat → Nat → List JsonValue
  | _, 0 => []
  | lo, len + 1 => cycleRecsD env opts lo ++ pagBetween env opts (lo + 1) len

/-- Records contributed to the result list by the initial-state blob: the
merged values when extraction yields a truthy mapping, nothing when it
yields None or a falsy value, the propagated error otherwise. -/
def internalMergeList (env : ChromeEnv) : Except PyError (List JsonValue) :=
  match get_internal_reviews env.html with
  | .error e => .error e
  | .ok iv => mergeOpt iv

/-- The environment with the captured response of cycle n removed, used to
compare a cycle that yields no data with the no-response case. -/
def clearWait (env : ChromeEnv) (n : Nat) : ChromeEnv :=
  { env with waitResponse := fun m => if m = n then none else env.waitResponse m }

/-- Page markup with both markers and a valid one-record review blob. -/
def htmlBlobOne : String :=
  "var initialState = JSON.parse(\\" ++ squoteStr ++
    "\"objectSuggestions\":\x7b\x7d,\"review\":\x7b\"u1\":\x7b\"id\":1\x7d\x7d,\"photo\":\x7b\x7d," ++
    "\\" ++ squoteStr ++ "); window"

/-- Page markup with both markers whose window normalizes to invalid JSON. -/
def htmlBadJson : String :=
  "var initialState = JSON.parse(\\" ++ squoteStr ++
    "\"objectSuggestions\":\x7b\x7d,x,\"photo\":\x7b\x7d," ++
    "\\" ++ squoteStr ++ "); window"

/-- Page markup where the first marker pair matches but the review window
markers are absent. -/
def htmlNoInner : String :=
  "var initialState = JSON.parse(\\" ++ squoteStr ++ "zz" ++
    "\\" ++ squoteStr ++ "); window"

/-- The single record of htmlBlobOne. -/
def recOne : JsonValue := .obj [("id", .num "1")]

def sidebarNode : DOMNode := ⟨"div", [("class", "")]⟩

def htmlDocResponse : Response := ⟨"text/html", 200⟩

def optsNoSkip : ParserOptions := ⟨false, 0⟩

def optsSkip : ParserOptions := ⟨true, 0⟩

/-- Good entry, one-record blob, a present sidebar, and no pagination
response is ever captured. -/
def envOne : ChromeEnv :=
  ⟨[htmlDocResponse], htmlBlobOne, fun _ => [sidebarNode], fun _ => none, fun _ => none, true⟩

/-- Like envOne with the invalid-JSON blob. -/
def envBad : ChromeEnv := { envOne with html := htmlBadJson }

/-- Like envBad with markup whose bootstrap markers are absent. -/
def envNoMark : ChromeEnv := { envOne with html := "x" }

/-- Like envBad with an empty DOM snapshot: the sidebar search finds
nothing. -/
def envNoSidebar : ChromeEnv := { envBad with domNodes := fun _ => [] }

/-- Like envBad but every pagination wait captures a response with a
negative status. -/
def envNegStatus : ChromeEnv :=
  { envBad with waitResponse := fun _ => some ⟨"", -1⟩ }

/-- Like envBad but every pagination wait captures a good-status response
whose body fetch yields nothing. -/
def envBodyNone : ChromeEnv :=
  { envBad with waitResponse := fun _ => some ⟨"", 200⟩ }

/-- Like envBad with a non-document first response. -/
def envWrongMime : ChromeEnv :=
  { envBad with navResponses := [⟨"text/css", 200⟩] }

/-- Like envBad with a 404 document response. -/
def env404 : ChromeEnv :=
  { envBad with navResponses := [⟨"text/html", 404⟩] }

theorem gir_err {html : String} {e : PyError}
    (h : get_internal_reviews html = .error e) : e = .typeError := by
  unfold get_internal_reviews at h
  split at h
  · simp_all
  · split at h
    · simp_all
    · split at h
      · simp_all
      · split at h <;> simp_all

theorem load_err {env : ChromeEnv} {opts : ParserOptions} {n : Nat} {e : PyError}
    {fx : CycleFx} (h : load_reviews env opts n = (.error e, fx)) :
    e = .indexError := by
  unfold load_reviews at h
  split at h
  · simp_all
  · split at h
    · split at h <;> simp_all
    · simp_all

theorem pySubscript_ne_assert (v k : JsonValue) :
    pySubscript v k ≠ .error .assertionError := by
  unfold pySubscript
  split
  · split
    · split <;> simp
    · simp
    · simp
    · simp
  · split
    · simp
    · dsimp only
      split <;> split <;> simp
  · split
    · simp
    · dsimp only
      split <;> split <;> simp
  · simp

theorem pyIterate_ne_assert (v : JsonValue) :
    pyIterate v ≠ .error .assertionError := by
  unfold pyIterate
  split <;> simp

theorem exceptMap_err {f : JsonValue → Except PyError JsonValue}
    {l : List JsonValue} {e : PyError} (h : exceptMap f l = .error e) :
    ∃ a, f a = .error e := by
  induction l with
  | nil => simp [exceptMap] at h
  | cons a as ih =>
    unfold exceptMap at h
    split at h
    · exact ⟨a, by simp_all⟩
    · split at h
      · exact ih (by simp_all)
      · simp_all

theorem mergeInternalVals_ne_assert (v : JsonValue) :
    mergeInternalVals v ≠ .error .assertionError := by
  unfold mergeInternalVals
  split
  · intro hc
    injection hc with hc2
    subst hc2
    exact pyIterate_ne_assert v (by assumption)
  · intro hc
    obtain ⟨a, ha⟩ := exceptMap_err hc
    exact pySubscript_ne_assert v a ha

theorem docRecords_ne_assert (d : String) :
    docRecords d ≠ .error .assertionError := by
  unfold docRecords
  split
  · simp
  · split
    · intro hc
      injection hc with hc2
      subst hc2
      exact pySubscript_ne_assert _ _ (by assumption)
    · exact pyIterate_ne_assert _



theorem internalMerge_of_ok {env : ChromeEnv} {g : Bool} {iv : Option JsonValue}
    {ir : List JsonValue}
    (h1 : internalStepRes env g = .ok iv) (h2 : mergeOpt iv = .ok ir) :
    (if g then internalMergeList env else Except.ok []) = .ok ir := by
  unfold internalStepRes at h1
  cases g with
  | false =>
    simp only [Bool.false_eq_true, if_false] at h1 ⊢
    injection h1 with h1v
    subst h1v
    exact h2
  | true =>
    simp only [if_true] at h1 ⊢
    unfold internalMergeList
    rw [h1]
    exact h2

theorem bodyStep_stop {acc ir : List JsonValue} {doc : Option String} {fx : CycleFx}
    {a r : List JsonValue} {fx2 : CycleFx}
    (h : bodyStep acc ir doc fx = (.stop a r, fx2)) :
    a = acc ∧ r = acc ++ ir ∧ docRecordsOf doc = .ok [] := by
  unfold bodyStep at h
  split at h
  · split at h
    · rename_i hd
      have h4 := congrArg Prod.fst h
      injection h4 with ha hr
      exact ⟨ha.symm, hr.symm, by simp [docRecordsOf, hd]⟩
    · split at h <;> exact absurd (congrArg Prod.fst h) (by simp)
  · have h4 := congrArg Prod.fst h
    injection h4 with ha hr
    exact ⟨ha.symm, hr.symm, rfl⟩

theorem bodyStep_next {acc ir : List JsonValue} {doc : Option String} {fx : CycleFx}
    {acc2 : List JsonValue} {fx2 : CycleFx}
    (h : bodyStep acc ir doc fx = (.next acc2, fx2)) :
    ∃ d dl, doc = some d ∧ d ≠ "" ∧ docRecordsOf doc = .ok dl ∧
      acc2 = acc ++ ir ++ dl := by
  unfold bodyStep at h
  split at h
  · rename_i d
    split at h
    · exact absurd (congrArg Prod.fst h) (by simp)
    · rename_i hd
      split at h
      · exact absurd (congrArg Prod.fst h) (by simp)
      · rename_i dl h6
        have h4 := congrArg Prod.fst h
        injection h4 with hacc
        exact ⟨d, dl, rfl, hd, by simp [docRecordsOf, hd, h6], hacc.symm⟩
  · exact absurd (congrArg Prod.fst h) (by simp)

theorem bodyStep_err {acc ir : List JsonValue} {doc : Option String} {fx : CycleFx}
    {e : PyError} {fx2 : CycleFx}
    (h : bodyStep acc ir doc fx = (.err e, fx2)) :
    ∃ d, doc = some d ∧ docRecords d = .error e := by
  unfold bodyStep at h
  split at h
  · rename_i d
    split at h
    · exact absurd (congrArg Prod.fst h) (by simp)
    · split at h
      · rename_i e2 h6
        have h4 := congrArg Prod.fst h
        injection h4 with he
        exact ⟨d, rfl, he ▸ h6⟩
      · exact absurd (congrArg Prod.fst h) (by simp)
  · exact absurd (congrArg Prod.fst h) (by simp)

theorem loopStep_stop {env : ChromeEnv} {opts : ParserOptions} {acc : List JsonValue}
    {g : Bool} {n : Nat} {a r : List JsonValue} {fx : CycleFx}
    (h : loopStep env opts acc g n = (.stop a r, fx)) :
    ∃ ir, (if g then internalMergeList env else Except.ok []) = .ok ir ∧
      a = acc ∧ r = acc ++ ir ∧ cycleRecords env opts n = .ok [] := by
  unfold loopStep at h
  split at h
  · exact absurd (congrArg Prod.fst h) (by simp)
  · rename_i iv h1
    split at h
    · exact absurd (congrArg Prod.fst h) (by simp)
    · rename_i doc fx2 h2
      split at h
      · exact absurd (congrArg Prod.fst h) (by simp)
      · rename_i ir h3
        obtain ⟨ha, hr, hrec⟩ := bodyStep_stop h
        refine ⟨ir, internalMerge_of_ok h1 h3, ha, hr, ?_⟩
        unfold cycleRecords cycleData
        rw [h2]
        exact hrec

theorem loopStep_next {env : ChromeEnv} {opts : ParserOptions} {acc : List JsonValue}
    {g : Bool} {n : Nat} {acc2 : List JsonValue} {fx : CycleFx}
    (h : loopStep env opts acc g n = (.next acc2, fx)) :
    ∃ ir d dl, (if g then internalMergeList env else Except.ok []) = .ok ir ∧
      cycleData env opts n = .ok (some d) ∧ d ≠ "" ∧
      cycleRecords env opts n = .ok dl ∧ acc2 = acc ++ ir ++ dl := by
  unfold loopStep at h
  split at h
  · exact absurd (congrArg Prod.fst h) (by simp)
  · rename_i iv h1
    split at h
    · exact absurd (congrArg Prod.fst h) (by simp)
    · rename_i doc fx2 h2
      split at h
      · exact absurd (congrArg Prod.fst h) (by simp)
      · rename_i ir h3
        obtain ⟨d, dl, hdoc, hd, hrec, hacc⟩ := bodyStep_next h
        subst hdoc
        have hdata : cycleData env opts n = .ok (some d) := by
          unfold cycleData
          rw [h2]
        refine ⟨ir, d, dl, internalMerge_of_ok h1 h3, hdata, hd, ?_, hacc⟩
        unfold cycleRecords cycleData
        rw [h2]
        exact hrec

theorem loopStep_err_ne_assert {env : ChromeEnv} {opts : ParserOptions}
    {acc : List JsonValue} {g : Bool} {n : Nat} {e : PyError} {fx : CycleFx}
    (h : loopStep env opts acc g n = (.err e, fx)) : e ≠ .assertionError := by
  unfold loopStep at h
  split at h
  · rename_i e2 h1
    have h4 := congrArg Prod.fst h
    injection h4 with he
    subst he
    unfold internalStepRes at h1
    cases g with
    | true =>
      simp only [if_true] at h1
      have := gir_err h1
      subst this
      decide
    | false => simp only [Bool.false_eq_true, if_false] at h1; simp at h1
  · rename_i iv h1
    split at h
    · rename_i e2 fx2 h2
      have h4 := congrArg Prod.fst h
      injection h4 with he
      subst he
      have := load_err h2
      subst this
      decide
    · rename_i doc fx2 h2
      split at h
      · rename_i e2 h3
        have h4 := congrArg Prod.fst h
        injection h4 with he
        subst he
        unfold mergeOpt at h3
        split at h3
        · split at h3
          · intro hc
            subst hc
            exact mergeInternalVals_ne_assert _ h3
          · simp at h3
        · simp at h3
      · rename_i ir h3
        obtain ⟨d, hdoc, hrec⟩ := bodyStep_err h
        intro hc
        subst hc
        exact docRecords_ne_assert d hrec

theorem parseLoop_ne_retNone (env : ChromeEnv) (opts : ParserOptions) :
    ∀ (fuel : Nat) (acc : List JsonValue) (g : Bool) (n : Nat),
      (parseLoop env opts acc g n fuel).1 ≠ .retNone := by
  intro fuel
  induction fuel with
  | zero => intro acc g n; simp [parseLoop]
  | succ f ih =>
    intro acc g n
    rcases hs : loopStep env opts acc g n with ⟨sr, fx⟩
    cases sr with
    | err e => simp [parseLoop, hs]
    | stop a r => simp [parseLoop, hs]
    | next acc2 =>
      simp only [parseLoop, hs]
      exact ih acc2 false (n + 1)

theorem parseLoop_ne_assert (env : ChromeEnv) (opts : ParserOptions) :
    ∀ (fuel : Nat) (acc : List JsonValue) (g : Bool) (n : Nat),
      (parseLoop env opts acc g n fuel).1 ≠ .err .assertionError := by
  intro fuel
  induction fuel with
  | zero => intro acc g n; simp [parseLoop]
  | succ f ih =>
    intro acc g n
    rcases hs : loopStep env opts acc g n with ⟨sr, fx⟩
    cases sr with
    | err e =>
      simp [parseLoop, hs]
      exact loopStep_err_ne_assert hs
    | stop a r => simp [parseLoop, hs]
    | next acc2 =>
      simp only [parseLoop, hs]
      exact ih acc2 false (n + 1)

theorem parseLoop_stop_iff (env : ChromeEnv) (opts : ParserOptions) :
    ∀ (fuel : Nat) (acc : List JsonValue) (g : Bool) (n : Nat),
      (parseLoop env opts acc g n fuel).2.stopCalled = true ↔
        ∃ m a r, (parseLoop env opts acc g n fuel).1 = .retList m a r := by
  intro fuel
  induction fuel with
  | zero => intro acc g n; simp [parseLoop, ParseTrace.empty]
  | succ f ih =>
    intro acc g n
    rcases hs : loopStep env opts acc g n with ⟨sr, fx⟩
    cases sr with
    | err e => simp [parseLoop, hs, stepTrace, ParseTrace.empty]
    | stop a r =>
      simp only [parseLoop, hs, stepTrace]
      constructor
      · intro _
        exact ⟨n, a, r, rfl⟩
      · intro _
        trivial
    | next acc2 =>
      simp only [parseLoop, hs]
      simpa [stepTrace] using ih acc2 false (n + 1)

theorem parseLoop_false_spec (env : ChromeEnv) (opts : ParserOptions) :
    ∀ (fuel n : Nat) (acc : List JsonValue) (m : Nat) (a r : List JsonValue)
      (t : ParseTrace),
      parseLoop env opts acc false n fuel = (.retList m a r, t) →
      ∃ len, m = n + len ∧ a = acc ++ pagBetween env opts n len ∧ r = a ∧
        cycleRecords env opts m = .ok [] ∧
        t.extractions = [] ∧ t.stopCalled = true := by
  intro fuel
  induction fuel with
  | zero =>
    intro n acc m a r t h
    exact absurd (congrArg Prod.fst h) (by simp [parseLoop])
  | succ f ih =>
    intro n acc m a r t h
    simp only [parseLoop] at h
    rcases hs : loopStep env opts acc false n with ⟨sr, fx⟩
    rw [hs] at h
    cases sr with
    | err e => exact absurd (congrArg Prod.fst h) (by simp)
    | stop a0 r0 =>
      obtain ⟨ir, hint, ha0, hr0, hcyc⟩ := loopStep_stop hs
      simp only [Bool.false_eq_true, if_false] at hint
      injection hint with hir
      injection h with hfst hsnd
      injection hfst with hm ha hr
      subst hm
      refine ⟨0, by omega, ?_, ?_, hcyc, ?_, ?_⟩
      · rw [← ha, ha0]
        simp [pagBetween]
      · rw [← hr, ← ha, ha0, hr0, ← hir]
        simp
      · rw [← hsnd]
        simp [stepTrace]
      · rw [← hsnd]
        simp [stepTrace]
    | next acc2 =>
      dsimp only at h
      rcases hrest : parseLoop env opts acc2 false (n + 1) f with ⟨res2, t2⟩
      rw [hrest] at h
      simp only at h
      injection h with hfst hsnd
      subst hfst
      obtain ⟨len1, hm, ha2, hr2, hcycm, hext2, hstop2⟩ :=
        ih (n + 1) acc2 m a r t2 hrest
      obtain ⟨ir, d, dl, hint, hdata, hd, hcrec, hacc2⟩ := loopStep_next hs
      simp only [Bool.false_eq_true, if_false] at hint
      injection hint with hir
      refine ⟨len1 + 1, by omega, ?_, hr2, hcycm, ?_, ?_⟩
      · rw [ha2, hacc2, ← hir]
        show acc ++ [] ++ dl ++ pagBetween env opts (n + 1) len1 =
          acc ++ pagBetween env opts n (len1 + 1)
        have hpb : pagBetween env opts n (len1 + 1) =
            cycleRecsD env opts n ++ pagBetween env opts (n + 1) len1 := rfl
        have hcd : cycleRecsD env opts n = dl := by
          unfold cycleRecsD
          rw [hcrec]
        rw [hpb, hcd]
        simp
      · rw [← hsnd]
        simp [stepTrace, hext2]
      · rw [← hsnd]
        simp [stepTrace, hstop2]

theorem parseLoop_true_spec (env : ChromeEnv) (opts : ParserOptions) :
    ∀ (fuel : Nat) (acc : List JsonValue) (m : Nat) (a r : List JsonValue)
      (t : ParseTrace),
      parseLoop env opts acc true 0 fuel = (.retList m a r, t) →
      ∃ ir, internalMergeList env = .ok ir ∧
        r = acc ++ ir ++ pagBetween env opts 0 m ∧
        cycleRecords env opts m = .ok [] ∧
        t.extractions = [0] ∧ t.stopCalled = true ∧
        (m = 0 → a = acc) ∧ (0 < m → a = r) := by
  intro fuel
  cases fuel with
  | zero =>
    intro acc m a r t h
    exact absurd (congrArg Prod.fst h) (by simp [parseLoop])
  | succ f =>
    intro acc m a r t h
    simp only [parseLoop] at h
    rcases hs : loopStep env opts acc true 0 with ⟨sr, fx⟩
    rw [hs] at h
    cases sr with
    | err e => exact absurd (congrArg Prod.fst h) (by simp)
    | stop a0 r0 =>
      obtain ⟨ir, hint, ha0, hr0, hcyc⟩ := loopStep_stop hs
      simp only [if_true] at hint
      injection h with hfst hsnd
      injection hfst with hm ha hr
      subst hm
      refine ⟨ir, hint, ?_, hcyc, ?_, ?_, fun _ => by rw [← ha, ha0],
        fun hc => absurd hc (by omega)⟩
      · rw [← hr, hr0]
        simp [pagBetween]
      · rw [← hsnd]
        simp [stepTrace]
      · rw [← hsnd]
        simp [stepTrace]
    | next acc2 =>
      dsimp only at h
      rcases hrest : parseLoop env opts acc2 false 1 f with ⟨res2, t2⟩
      rw [hrest] at h
      simp only at h
      injection h with hfst hsnd
      subst hfst
      obtain ⟨len1, hm, ha2, hr2, hcycm, hext2, hstop2⟩ :=
        parseLoop_false_spec env opts f 1 acc2 m a r t2 hrest
      obtain ⟨ir, d, dl, hint, hdata, hd, hcrec, hacc2⟩ := loopStep_next hs
      simp only [if_true] at hint
      refine ⟨ir, hint, ?_, hcycm, ?_, ?_, fun hc => by exfalso; omega,
        fun _ => hr2.symm⟩
      · have hm2 : m = len1 + 1 := by omega
        subst hm2
        rw [hr2, ha2, hacc2]
        have hcd : cycleRecsD env opts 0 = dl := by
          unfold cycleRecsD
          rw [hcrec]
        show acc ++ ir ++ dl ++ pagBetween env opts 1 len1 =
          acc ++ ir ++ (cycleRecsD env opts 0 ++ pagBetween env opts 1 len1)
        rw [hcd]
        simp
      · rw [← hsnd]
        simp [stepTrace, hext2]
      · rw [← hsnd]
        simp [stepTrace, hstop2]

theorem parseLoop_no_fuelOut (env : ChromeEnv) (opts : ParserOptions) :
    ∀ (fuel n k : Nat) (acc : List JsonValue) (g : Bool),
      n ≤ k → k < n + fuel → cycleData env opts k = .ok none →
      (parseLoop env opts acc g n fuel).1 ≠ .fuelOut := by
  intro fuel
  induction fuel with
  | zero =>
    intro n k acc g h1 h2 h3
    exact absurd h2 (by omega)
  | succ f ih =>
    intro n k acc g h1 h2 h3
    rcases hs : loopStep env opts acc g n with ⟨sr, fx⟩
    cases sr with
    | err e => simp [parseLoop, hs]
    | stop a r => simp [parseLoop, hs]
    | next acc2 =>
      simp only [parseLoop, hs]
      by_cases hnk : n = k
      · obtain ⟨ir, d, dl, hint, hdata, hd, hcrec, hacc2⟩ := loopStep_next hs
        rw [hnk, h3] at hdata
        simp at hdata
      · exact ih (n + 1) k acc2 false (by omega) (by omega) h3

theorem load_reviews_clearWait_ne {env : ChromeEnv} {opts : ParserOptions}
    {n m : Nat} (hmn : m ≠ n) :
    load_reviews (clearWait env n) opts m = load_reviews env opts m := by
  unfold load_reviews get_sidebar clearWait
  simp [hmn]

theorem loopStep_clearWait_ne {env : ChromeEnv} {opts : ParserOptions}
    {acc : List JsonValue} {g : Bool} {n m : Nat} (hmn : m ≠ n) :
    loopStep (clearWait env n) opts acc g m = loopStep env opts acc g m := by
  unfold loopStep
  rw [load_reviews_clearWait_ne hmn]
  rfl

theorem load_clearWait_at {env : ChromeEnv} {opts : ParserOptions} {n : Nat}
    (h3 : cycleData env opts n = .ok none) :
    (load_reviews (clearWait env n) opts n).1 = .ok none := by
  unfold cycleData load_reviews at h3
  unfold load_reviews
  have hsb : get_sidebar (clearWait env n) n = get_sidebar env n := rfl
  rw [hsb]
  rcases hcase : get_sidebar env n with _ | ⟨s, ss⟩
  · rw [hcase] at h3
    simp at h3
  · rw [hcase] at h3
    have hw : (clearWait env n).waitResponse n = none := by
      unfold clearWait
      simp
    rw [hw]

theorem loopStep_clearWait_at {env : ChromeEnv} {opts : ParserOptions}
    {acc : List JsonValue} {g : Bool} {n : Nat}
    (h3 : cycleData env opts n = .ok none) :
    (loopStep (clearWait env n) opts acc g n).1 = (loopStep env opts acc g n).1 := by
  unfold loopStep
  have hint : internalStepRes (clearWait env n) g = internalStepRes env g := rfl
  rw [hint]
  rcases hiv : internalStepRes env g with e | iv
  · rfl
  · rcases hle : load_reviews env opts n with ⟨de, fxe⟩
    rcases hlc : load_reviews (clearWait env n) opts n with ⟨dc, fxc⟩
    have h3e : de = .ok none := by
      unfold cycleData at h3
      rw [hle] at h3
      exact h3
    have h3c : dc = .ok none := by
      have hq := load_clearWait_at h3
      rw [hlc] at hq
      exact hq
    subst h3e
    subst h3c
    dsimp only
    rcases hm : mergeOpt iv with e | ir
    · rfl
    · simp [bodyStep]

theorem parseLoop_clearWait (env : ChromeEnv) (opts : ParserOptions) (k : Nat)
    (h3 : cycleData env opts k = .ok none) :
    ∀ (fuel n : Nat) (acc : List JsonValue) (g : Bool), n ≤ k →
      (parseLoop (clearWait env k) opts acc g n fuel).1 =
        (parseLoop env opts acc g n fuel).1 := by
  intro fuel
  induction fuel with
  | zero => intro n acc g hnk; rfl
  | succ f ih =>
    intro n acc g hnk
    by_cases heq : n = k
    · subst heq
      have h1 := @loopStep_clearWait_at env opts acc g n h3
      rcases hsE : loopStep env opts acc g n with ⟨srE, fxE⟩
      rcases hsC : loopStep (clearWait env n) opts acc g n with ⟨srC, fxC⟩
      have hsr : srC = srE := by
        rw [hsE, hsC] at h1
        exact h1
      subst hsr
      cases srC with
      | err e => simp [parseLoop, hsE, hsC]
      | stop a r => simp [parseLoop, hsE, hsC]
      | next acc2 =>
        obtain ⟨ir, d, dl, hint, hdata, hd, hcrec, hacc2⟩ := loopStep_next hsE
        rw [h3] at hdata
        simp at hdata
    · have hne := @loopStep_clearWait_ne env opts acc g k n heq
      rcases hs : loopStep env opts acc g n with ⟨sr, fx⟩
      rw [hs] at hne
      cases sr with
      | err e => simp [parseLoop, hne, hs]
      | stop a r => simp [parseLoop, hne, hs]
      | next acc2 =>
        simp only [parseLoop, hne, hs]
        exact ih (n + 1) acc2 false (by omega)

theorem parse_clearWait (env : ChromeEnv) (opts : ParserOptions) (k fuel : Nat)
    (h3 : cycleData env opts k = .ok none) :
    (parse (clearWait env k) opts fuel).1 = (parse env opts fuel).1 := by
  unfold parse
  have hnav : (clearWait env k).navResponses = env.navResponses := rfl
  rw [hnav]
  rcases hnv : env.navResponses with _ | ⟨r0, rest⟩
  · rfl
  · dsimp only
    split
    · split
      · rfl
      · exact parseLoop_clearWait env opts k h3 fuel 0 [] true (by omega)
    · rfl

theorem parseLoop_quiescent (env : ChromeEnv) (opts : ParserOptions) (b : Bool) :
    ∀ (fuel n : Nat) (acc : List JsonValue) (g : Bool),
      parseLoop { env with quiescent := b } opts acc g n fuel =
        parseLoop env opts acc g n fuel := by
  intro fuel
  induction fuel with
  | zero => intro n acc g; rfl
  | succ f ih =>
    intro n acc g
    have hstep : loopStep { env with quiescent := b } opts acc g n =
        loopStep env opts acc g n := rfl
    simp only [parseLoop, hstep]
    rcases hs : loopStep env opts acc g n with ⟨sr, fx⟩
    cases sr with
    | err e => simp [hs]
    | stop a r => simp [hs]
    | next acc2 => simp [hs, ih (n + 1) acc2 false]

theorem parse_quiescent (env : ChromeEnv) (opts : ParserOptions) (fuel : Nat) (b : Bool) :
    parse { env with quiescent := b } opts fuel = parse env opts fuel := by
  unfold parse
  rw [parseLoop_quiescent env opts b fuel 0 [] true]

theorem parse_entry_loop {env : ChromeEnv} {opts : ParserOptions} {fuel : Nat}
    {r0 : Response} {rest : List Response}
    (hnv : env.navResponses = r0 :: rest) (hmime : r0.mimeType = "text/html")
    (h404 : ¬(r0.status = 404 ∧ opts.skip_404_response = true)) :
    parse env opts fuel = parseLoop env opts [] true 0 fuel := by
  unfold parse
  rw [hnv]
  dsimp only
  rw [if_pos hmime, if_neg h404]

theorem parse_retList_loop {env : ChromeEnv} {opts : ParserOptions} {fuel : Nat}
    {m : Nat} {a r : List JsonValue} {t : ParseTrace}
    (h : parse env opts fuel = (.retList m a r, t)) :
    parseLoop env opts [] true 0 fuel = (.retList m a r, t) := by
  unfold parse at h
  rcases hnv : env.navResponses with _ | ⟨r0, rest⟩
  · rw [hnv] at h
    exact absurd (congrArg Prod.fst h) (by simp)
  · rw [hnv] at h
    dsimp only at h
    split at h
    · split at h
      · exact absurd (congrArg Prod.fst h) (by simp)
      · exact h
    · exact absurd (congrArg Prod.fst h) (by simp)

/-- Claim C5: parse returns the bare None value exactly in the early
failure cases — no document response at all, or a 404 document (of the
asserted text/html type) with skip_404_response enabled — and in those
cases it returns before any pagination activity; every other returning run
hands back a list of records. -/
theorem c5_parse_none_iff (env : ChromeEnv) (opts : ParserOptions) (fuel : Nat) :
    ((parse env opts fuel).1 = .retNone ↔
      env.navResponses = [] ∨
        ∃ r0 rest, env.navResponses = r0 :: rest ∧ r0.mimeType = "text/html" ∧
          r0.status = 404 ∧ opts.skip_404_response = true) ∧
    ((parse env opts fuel).1 = .retNone →
      (parse env opts fuel).2 = ParseTrace.empty) := by
  unfold parse
  rcases hnv : env.navResponses with _ | ⟨r0, rest⟩
  · simp
  · dsimp only
    by_cases hmime : r0.mimeType = "text/html"
    · rw [if_pos hmime]
      by_cases h404 : r0.status = 404 ∧ opts.skip_404_response = true
      · rw [if_pos h404]
        refine ⟨⟨fun _ => Or.inr ⟨r0, rest, rfl, hmime, h404.1, h404.2⟩,
          fun _ => rfl⟩, fun _ => rfl⟩
      · rw [if_neg h404]
        constructor
        · constructor
          · intro hc
            exact absurd hc (parseLoop_ne_retNone env opts fuel [] true 0)
          · intro hc
            rcases hc with hnil | ⟨r1, rest1, heq, hm1, hs1, hk1⟩
            · simp at hnil
            · injection heq with h1 h2
              subst h1
              exact absurd ⟨hs1, hk1⟩ h404
        · intro hc
          exact absurd hc (parseLoop_ne_retNone env opts fuel [] true 0)
    · rw [if_neg hmime]
      constructor
      · constructor
        · intro hc
          simp at hc
        · intro hc
          rcases hc with hnil | ⟨r1, rest1, heq, hm1, hs1, hk1⟩
          · simp at hnil
          · injection heq with h1 h2
            subst h1
            exact absurd hm1 hmime
      · intro hc
        simp at hc

/-- Witness for C5 at a concrete 404 environment with skipping enabled. -/
theorem c5_parse_none_iff_witness :
    (parse env404 optsSkip 1).1 = .retNone ∧
    (parse env404 optsSkip 1).2 = ParseTrace.empty := by
  have h := (c5_parse_none_iff env404 optsSkip 1).1.mpr
    (Or.inr ⟨⟨"text/html", 404⟩, [], rfl, rfl, rfl, rfl⟩)
  exact ⟨h, (c5_parse_none_iff env404 optsSkip 1).2 h⟩

/-- Claim C7: parse aborts with an assertion failure precisely when the
first document response exists and its mime type is not text/html; in
every other situation no assertion failure is possible. -/
theorem c7_assert_iff_bad_mime (env : ChromeEnv) (opts : ParserOptions) (fuel : Nat) :
    (parse env opts fuel).1 = .err .assertionError ↔
      ∃ r0 rest, env.navResponses = r0 :: rest ∧ r0.mimeType ≠ "text/html" := by
  unfold parse
  rcases hnv : env.navResponses with _ | ⟨r0, rest⟩
  · simp
  · dsimp only
    by_cases hmime : r0.mimeType = "text/html"
    · rw [if_pos hmime]
      by_cases h404 : r0.status = 404 ∧ opts.skip_404_response = true
      · rw [if_pos h404]
        constructor
        · intro hc
          simp at hc
        · rintro ⟨r1, rest1, heq, hm1⟩
          injection heq with h1 h2
          subst h1
          exact absurd hmime hm1
      · rw [if_neg h404]
        constructor
        · intro hc
          exact absurd hc (parseLoop_ne_assert env opts fuel [] true 0)
        · rintro ⟨r1, rest1, heq, hm1⟩
          injection heq with h1 h2
          subst h1
          exact absurd hmime hm1
    · rw [if_neg hmime]
      exact ⟨fun _ => ⟨r0, rest, rfl, hmime⟩, fun _ => rfl⟩

/-- Witness for C7 at a concrete environment with a text/css document. -/
theorem c7_assert_iff_bad_mime_witness :
    (parse envWrongMime optsNoSkip 1).1 = .err .assertionError :=
  (c7_assert_iff_bad_mime envWrongMime optsNoSkip 1).mpr
    ⟨⟨"text/css", 200⟩, [], rfl, by simp⟩

/-- Claim C8: when some pagination cycle k within the fuel bound captures
no response, parse cannot exhaust its fuel: every run either returns or
raises, so the loop has no infinite path once a bounded wait comes back
empty. -/
theorem c8_no_data_terminates (env : ChromeEnv) (opts : ParserOptions)
    (fuel k : Nat) (hk : k < fuel) (hnd : cycleData env opts k = .ok none) :
    (parse env opts fuel).1 ≠ .fuelOut := by
  unfold parse
  rcases hnv : env.navResponses with _ | ⟨r0, rest⟩
  · simp
  · dsimp only
    by_cases hmime : r0.mimeType = "text/html"
    · rw [if_pos hmime]
      by_cases h404 : r0.status = 404 ∧ opts.skip_404_response = true
      · rw [if_pos h404]
        simp
      · rw [if_neg h404]
        exact parseLoop_no_fuelOut env opts fuel 0 k [] true (by omega) (by omega) hnd
    · rw [if_neg hmime]
      simp

/-- Witness for C8 at a concrete environment whose first wait is empty. -/
theorem c8_no_data_terminates_witness :
    0 < 1 ∧ cycleData envBad optsNoSkip 0 = .ok none ∧
      (parse envBad optsNoSkip 1).1 ≠ .fuelOut :=
  ⟨by decide, rfl, c8_no_data_terminates envBad optsNoSkip 1 0 (by decide) rfl⟩

/-- Claim C10: the browsing session is stopped exactly on the runs where
parse returns the accumulated record list; the early returns, the raising
runs and fuel exhaustion all leave the session unstopped. -/
theorem c10_stop_iff_records (env : ChromeEnv) (opts : ParserOptions) (fuel : Nat) :
    (parse env opts fuel).2.stopCalled = true ↔
      ∃ m a r, (parse env opts fuel).1 = .retList m a r := by
  unfold parse
  rcases hnv : env.navResponses with _ | ⟨r0, rest⟩
  · simp [ParseTrace.empty]
  · dsimp only
    by_cases hmime : r0.mimeType = "text/html"
    · rw [if_pos hmime]
      by_cases h404 : r0.status = 404 ∧ opts.skip_404_response = true
      · rw [if_pos h404]
        simp [ParseTrace.empty]
      · rw [if_neg h404]
        exact parseLoop_stop_iff env opts fuel [] true 0
    · rw [if_neg hmime]
      simp [ParseTrace.empty]

/-- Claim C2: the quiescence wait is non-fatal and without influence on
the outcome — a run in which the activity counter never settles behaves
exactly like one in which it does, and with a good entry gate the parse
still proceeds into the pagination loop.  The wait_until_finished
decorator itself lives outside src and is modelled from the spec. -/
theorem c2_quiescence_timeout_nonfatal (env : ChromeEnv) (opts : ParserOptions)
    (fuel : Nat) :
    parse { env with quiescent := false } opts fuel = parse env opts fuel ∧
    (∀ r0 rest, env.navResponses = r0 :: rest → r0.mimeType = "text/html" →
      ¬(r0.status = 404 ∧ opts.skip_404_response = true) →
      parse { env with quiescent := false } opts fuel =
        parseLoop env opts [] true 0 fuel) := by
  refine ⟨parse_quiescent env opts fuel false, ?_⟩
  intro r0 rest hnv hmime h404
  rw [parse_quiescent env opts fuel false]
  exact parse_entry_loop hnv hmime h404

/-- Witness for C2 at a concrete environment with the counter unsettled. -/
theorem c2_quiescence_timeout_nonfatal_witness :
    parse { envBad with quiescent := false } optsNoSkip 1 =
      parseLoop envBad optsNoSkip [] true 0 1 :=
  (c2_quiescence_timeout_nonfatal envBad optsNoSkip 1).2 htmlDocResponse [] rfl rfl
    (by decide)

/-- Claim C9: a captured response with a negative status yields no data and
never fetches the body; a good-status response whose body fetch yields
nothing also yields no data; and a cycle that yields no data makes the
whole parse return exactly what it returns when no response is captured at
all. -/
theorem c9_negative_status_or_missing_body (env : ChromeEnv) (opts : ParserOptions)
    (n : Nat) (resp : Response) (hw : env.waitResponse n = some resp)
    (hsb : get_sidebar env n ≠ []) :
    (resp.status < 0 →
      load_reviews env opts n = (.ok none, ⟨true, false⟩)) ∧
    (0 ≤ resp.status → env.responseBody n = none →
      load_reviews env opts n = (.ok none, ⟨true, true⟩)) ∧
    (cycleData env opts n = .ok none → ∀ fuel,
      (parse env opts fuel).1 = (parse (clearWait env n) opts fuel).1) := by
  refine ⟨?_, ?_, ?_⟩
  · intro hneg
    unfold load_reviews
    rcases hcase : get_sidebar env n with _ | ⟨s, ss⟩
    · exact absurd hcase hsb
    · dsimp only
      rw [hw]
      dsimp only
      rw [if_neg (by omega)]
  · intro hpos hbody
    unfold load_reviews
    rcases hcase : get_sidebar env n with _ | ⟨s, ss⟩
    · exact absurd hcase hsb
    · dsimp only
      rw [hw]
      dsimp only
      rw [if_pos hpos, hbody]
  · intro hnd fuel
    exact (parse_clearWait env opts n fuel hnd).symm

/-- Witness for C9 at concrete environments with a negative status and
with a missing body. -/
theorem c9_negative_status_or_missing_body_witness :
    load_reviews envNegStatus optsNoSkip 0 = (.ok none, ⟨true, false⟩) ∧
    load_reviews envBodyNone optsNoSkip 0 = (.ok none, ⟨true, true⟩) ∧
    (parse envNegStatus optsNoSkip 1).1 =
      (parse (clearWait envNegStatus 0) optsNoSkip 1).1 := by
  have hsb1 : get_sidebar envNegStatus 0 ≠ [] := by
    rw [show get_sidebar envNegStatus 0 = [sidebarNode] from rfl]
    simp
  have hsb2 : get_sidebar envBodyNone 0 ≠ [] := by
    rw [show get_sidebar envBodyNone 0 = [sidebarNode] from rfl]
    simp
  refine ⟨?_, ?_, ?_⟩
  · exact (c9_negative_status_or_missing_body envNegStatus optsNoSkip 0 ⟨"", -1⟩
      rfl hsb1).1 (by decide)
  · exact (c9_negative_status_or_missing_body envBodyNone optsNoSkip 0 ⟨"", 200⟩
      rfl hsb2).2.1 (by decide) rfl
  · exact (c9_negative_status_or_missing_body envNegStatus optsNoSkip 0 ⟨"", -1⟩
      rfl hsb1).2.2 rfl 1

/-- Counterexample to C1 as stated: on markup without the bootstrap
markers, get_internal_reviews raises a TypeError that propagates out of
parse, instead of returning the no-initial-records value. -/
theorem c1_counterexample :
    get_internal_reviews "x" = .error .typeError ∧
    (.error .typeError : Except PyError (Option JsonValue)) ≠ .ok none ∧
    (parse envNoMark optsNoSkip 3).1 = .err .typeError := by
  refine ⟨rfl, by simp, rfl⟩

/-- Claim C1 (amended): only a normalization window that fails json.loads
is absorbed — then get_internal_reviews returns no initial records and a
completed parse returns exactly the pagination records; when either
textual marker is absent the search is None, subscripting it raises a
TypeError, and the error propagates. -/
theorem c1_initial_state_error_policy :
    (∀ html : String, scan1 html.data = none →
        get_internal_reviews html = .error .typeError) ∧
    (∀ (html : String) (g1 : List Char), scan1 html.data = some g1 →
        scan2 g1 = none → get_internal_reviews html = .error .typeError) ∧
    (∀ (html : String) (g1 g2 : List Char), scan1 html.data = some g1 →
        scan2 g1 = some g2 →
        jsonLoads (normalizeReviewsJson (String.mk g2)) = none →
        get_internal_reviews html = .ok none) ∧
    (∀ (env : ChromeEnv) (opts : ParserOptions) (fuel m : Nat)
        (a r : List JsonValue),
        get_internal_reviews env.html = .ok none →
        (parse env opts fuel).1 = .retList m a r →
        r = pagBetween env opts 0 m) := by
  refine ⟨?_, ?_, ?_, ?_⟩
  · intro html h1
    unfold get_internal_reviews
    rw [h1]
  · intro html g1 h1 h2
    unfold get_internal_reviews
    rw [h1]
    dsimp only
    rw [h2]
  · intro html g1 g2 h1 h2 h3
    unfold get_internal_reviews
    rw [h1]
    dsimp only
    rw [h2]
    dsimp only
    rw [h3]
  · intro env opts fuel m a r hgir hp
    have hpair : parse env opts fuel = (.retList m a r, (parse env opts fuel).2) := by
      rw [← hp]
    have hloop := parse_retList_loop hpair
    obtain ⟨ir, hint, hr, hcyc, hext, hstop, hm0, hmpos⟩ :=
      parseLoop_true_spec env opts fuel [] m a r _ hloop
    have h0 : internalMergeList env = .ok [] := by
      unfold internalMergeList
      rw [hgir]
      rfl
    have hir : ir = [] := Except.ok.inj (hint.symm.trans h0)
    subst hir
    rw [hr]
    simp

/-- Witness for C1 at concrete markups for each branch of the policy. -/
theorem c1_initial_state_error_policy_witness :
    get_internal_reviews "x" = .error .typeError ∧
    get_internal_reviews htmlNoInner = .error .typeError ∧
    get_internal_reviews htmlBadJson = .ok none ∧
    ((parse envBad optsNoSkip 2).1 = .retList 0 [] [] ∧
      ([] : List JsonValue) = pagBetween envBad optsNoSkip 0 0) := by
  refine ⟨c1_initial_state_error_policy.1 "x" rfl,
    c1_initial_state_error_policy.2.1 htmlNoInner "zz".data rfl rfl,
    c1_initial_state_error_policy.2.2.1 htmlBadJson
      ("\"objectSuggestions\":\x7b\x7d,x,\"photo\":\x7b\x7d,").data "x".data
      rfl rfl rfl,
    rfl,
    c1_initial_state_error_policy.2.2.2 envBad optsNoSkip 2 0 [] [] rfl rfl⟩

/-- Counterexample to C3 as stated: with an empty DOM snapshot the
sidebar search yields no node, load_reviews indexes the empty list, and
parse raises an IndexError instead of continuing without a scroll. -/
theorem c3_counterexample :
    (parse envNoSidebar optsNoSkip 3).1 = .err .indexError ∧
    (parse envNoSidebar optsNoSkip 3).2.scrolls = [] := by
  exact ⟨rfl, rfl⟩

/-- Claim C3 (amended): when the sidebar search of a cycle yields no node,
the cycle performs no scroll, but the failure is fatal rather than
skipped: indexing the empty search result raises an IndexError that
propagates out of parse. -/
theorem c3_sidebar_missing_fatal (env : ChromeEnv) (opts : ParserOptions)
    (fuel : Nat) (r0 : Response) (rest : List Response) (x : Option JsonValue)
    (hnv : env.navResponses = r0 :: rest) (hmime : r0.mimeType = "text/html")
    (h404 : ¬(r0.status = 404 ∧ opts.skip_404_response = true))
    (hgir : get_internal_reviews env.html = .ok x)
    (hsb : get_sidebar env 0 = []) (hfuel : 0 < fuel) :
    (parse env opts fuel).1 = .err .indexError ∧
    (parse env opts fuel).2.scrolls = [] := by
  rw [parse_entry_loop hnv hmime h404]
  cases fuel with
  | zero => exact absurd hfuel (by omega)
  | succ f =>
    have hstep : loopStep env opts [] true 0 = (.err .indexError, ⟨false, false⟩) := by
      unfold loopStep internalStepRes load_reviews
      rw [if_pos rfl, hgir, hsb]
    simp [parseLoop, hstep, stepTrace, ParseTrace.empty]

/-- Witness for C3 at a concrete environment with an empty DOM snapshot. -/
theorem c3_sidebar_missing_fatal_witness :
    (parse envNoSidebar optsNoSkip 1).1 = .err .indexError ∧
    (parse envNoSidebar optsNoSkip 1).2.scrolls = [] :=
  c3_sidebar_missing_fatal envNoSidebar optsNoSkip 1 htmlDocResponse [] none
    rfl rfl (by decide) rfl rfl (by decide)

/-- Counterexample to C4 as stated: in the first cycle the initial-state
records are appended after load_reviews has already returned no data, so
parse returns a list that strictly extends the accumulated list at the
moment of the no-data observation. -/
theorem c4_counterexample :
    (parse envOne optsNoSkip 2).1 = .retList 0 [] [recOne] ∧
    [recOne] ≠ ([] : List JsonValue) := by
  exact ⟨rfl, by simp⟩

/-- Claim C4 (amended): a cycle that observes no captured response is the
terminating cycle — it contributes no pagination records and no later
cycle runs; in every cycle after the first, nothing is appended after the
observation and the list at the observation is returned unchanged, while
in the first cycle the already-extracted initial-state records are still
appended after the observation before the list is returned. -/
theorem c4_no_data_terminates_cycle (env : ChromeEnv) (opts : ParserOptions)
    (fuel m : Nat) (a r : List JsonValue)
    (h : (parse env opts fuel).1 = .retList m a r) :
    cycleRecords env opts m = .ok [] ∧
    (0 < m → r = a) ∧
    (m = 0 → ∃ ir, internalMergeList env = .ok ir ∧ r = a ++ ir) := by
  have hpair : parse env opts fuel = (.retList m a r, (parse env opts fuel).2) := by
    rw [← h]
  have hloop := parse_retList_loop hpair
  obtain ⟨ir, hint, hr, hcyc, hext, hstop, hm0, hmpos⟩ :=
    parseLoop_true_spec env opts fuel [] m a r _ hloop
  refine ⟨hcyc, fun hpos => (hmpos hpos).symm, fun hm => ?_⟩
  refine ⟨ir, hint, ?_⟩
  rw [hm0 hm, hr, hm]
  simp [pagBetween]

/-- Witness for C4 at the concrete one-record environment. -/
theorem c4_no_data_terminates_cycle_witness :
    (parse envOne optsNoSkip 2).1 = .retList 0 [] [recOne] ∧
    (cycleRecords envOne optsNoSkip 0 = .ok [] ∧
      (0 < 0 → [recOne] = ([] : List JsonValue)) ∧
      (0 = 0 → ∃ ir, internalMergeList envOne = .ok ir ∧
        [recOne] = ([] : List JsonValue) ++ ir)) :=
  ⟨rfl, c4_no_data_terminates_cycle envOne optsNoSkip 2 0 [] [recOne] rfl⟩

/-- Claim C6: in every completed parse the records recovered from the
initial-state blob come first in the returned sequence, followed by the
pagination records in cycle order, and the bootstrap extraction runs
exactly once, in the first loop iteration. -/
theorem c6_initial_precede_pagination (env : ChromeEnv) (opts : ParserOptions)
    (fuel m : Nat) (a r : List JsonValue)
    (h : (parse env opts fuel).1 = .retList m a r) :
    ∃ ir, internalMergeList env = .ok ir ∧
      r = ir ++ pagBetween env opts 0 m ∧
      (parse env opts fuel).2.extractions = [0] := by
  have hpair : parse env opts fuel = (.retList m a r, (parse env opts fuel).2) := by
    rw [← h]
  have hloop := parse_retList_loop hpair
  obtain ⟨ir, hint, hr, hcyc, hext, hstop, hm0, hmpos⟩ :=
    parseLoop_true_spec env opts fuel [] m a r _ hloop
  refine ⟨ir, hint, ?_, hext⟩
  rw [hr]
  simp

/-- Witness for C6 at the concrete one-record environment. -/
theorem c6_initial_precede_pagination_witness :
    (parse envOne optsNoSkip 2).1 = .retList 0 [] [recOne] ∧
    (∃ ir, internalMergeList envOne = .ok ir ∧
      [recOne] = ir ++ pagBetween envOne optsNoSkip 0 0 ∧
      (parse envOne optsNoSkip 2).2.extractions = [0]) :=
  ⟨rfl, c6_initial_precede_pagination envOne optsNoSkip 2 0 [] [recOne] rfl⟩
